import Mathlib

/-!
Shallow embedding of the OCR text-block pipeline of this repository
(`src/data_structures.py` and `src/text_block_sorter.py`).

Coordinates, confidences and durations are modelled as rationals, texts and
directions as strings, ids as integers.  Python's in-place mutation is modelled
by explicit state passing: each operation returns the new value.
-/

structure BoundingBox where
  x0 : ℚ
  y0 : ℚ
  x1 : ℚ
  y1 : ℚ
deriving DecidableEq, Repr

/-- Embeds `BoundingBox.width`. -/
def BoundingBox.width (b : BoundingBox) : ℚ := b.x1 - b.x0

/-- Embeds `BoundingBox.height`. -/
def BoundingBox.height (b : BoundingBox) : ℚ := b.y1 - b.y0

/-- Embeds `BoundingBox.area`. -/
def BoundingBox.area (b : BoundingBox) : ℚ := b.width * b.height

/-- Embeds `BoundingBox.center`. -/
def BoundingBox.center (b : BoundingBox) : ℚ × ℚ :=
  ((b.x0 + b.x1) / 2, (b.y0 + b.y1) / 2)

/-- Embeds `BoundingBox.intersection`. -/
def BoundingBox.intersection (b other : BoundingBox) : Option BoundingBox :=
  let x0 := max b.x0 other.x0
  let y0 := max b.y0 other.y0
  let x1 := min b.x1 other.x1
  let y1 := min b.y1 other.y1
  if x0 < x1 ∧ y0 < y1 then some ⟨x0, y0, x1, y1⟩ else none

/-- Embeds `BoundingBox.intersection_area`. -/
def BoundingBox.intersection_area (b other : BoundingBox) : ℚ :=
  match b.intersection other with
  | some r => r.area
  | none => 0

/-- Embeds `BoundingBox.overlap_ratio`. -/
def BoundingBox.overlap_ratio (b other : BoundingBox) : ℚ :=
  if b.area = 0 then 0 else b.intersection_area other / b.area

structure TextBlock where
  text : String
  bbox : BoundingBox
  confidence : ℚ
  direction : String := "horizontal"
  block_id : Option ℤ := none
deriving DecidableEq, Repr

structure PageOCRResult where
  page_number : ℤ
  text_blocks : List TextBlock
  page_width : ℚ
  page_height : ℚ
  success : Bool := true
  error : Option String := none
  processing_time : ℚ := 0
deriving DecidableEq, Repr

structure DocumentOCRResult where
  input_file : String
  pages : List PageOCRResult
  total_processing_time : ℚ := 0
  device_used : String := "cpu"
  dpi : ℤ := 300
deriving DecidableEq, Repr

/-- Removal test inside `PageOCRResult.remove_duplicate_blocks`: block `a` is
scheduled for removal against `b` when the overlap ratio reaches the threshold
and the area of `a` is strictly smaller. -/
def dedupQualifies (t : ℚ) (a b : TextBlock) : Bool :=
  decide (t ≤ a.bbox.overlap_ratio b.bbox) && decide (a.bbox.area < b.bbox.area)

/-- Forward pass of `PageOCRResult.remove_duplicate_blocks`: the list of indices
scheduled for removal after the outer loop has processed candidates
`0, …, n-1` (in Python, the growing set `blocks_to_remove`). -/
def removeUpTo (blocks : List TextBlock) (t : ℚ) : ℕ → List ℕ
  | 0 => []
  | n + 1 =>
    let prev := removeUpTo blocks t n
    match blocks[n]? with
    | none => prev
    | some a =>
      if prev.contains n then prev
      else if blocks.enum.any fun jb =>
          decide (jb.1 ≠ n) && !(prev.contains jb.1) && dedupQualifies t a jb.2 then
        prev ++ [n]
      else prev

/-- The complete removal set computed by the single forward pass of
`PageOCRResult.remove_duplicate_blocks`. -/
def blocksToRemove (blocks : List TextBlock) (t : ℚ) : List ℕ :=
  removeUpTo blocks t blocks.length

/-- Embeds `PageOCRResult.remove_duplicate_blocks`; the mutation of
`self.text_blocks` is modelled by returning the updated page together with the
removed count. -/
def PageOCRResult.remove_duplicate_blocks (page : PageOCRResult) (t : ℚ := 3/5) :
    PageOCRResult × ℕ :=
  if page.text_blocks.length ≤ 1 then (page, 0)
  else
    let rem := blocksToRemove page.text_blocks t
    let kept := (page.text_blocks.enum.filter fun ib => !(rem.contains ib.1)).map Prod.snd
    ({ page with text_blocks := kept }, page.text_blocks.length - kept.length)

/-- Embeds `calculate_overlap_ratio` of `text_block_sorter.py` (the symmetric
overlap measure used by the merger). -/
def calculate_overlap_ratio (bbox1 bbox2 : BoundingBox) : ℚ :=
  let overlap_left := max bbox1.x0 bbox2.x0
  let overlap_top := max bbox1.y0 bbox2.y0
  let overlap_right := min bbox1.x1 bbox2.x1
  let overlap_bottom := min bbox1.y1 bbox2.y1
  if overlap_right ≤ overlap_left ∨ overlap_bottom ≤ overlap_top then 0
  else
    let overlap_area := (overlap_right - overlap_left) * (overlap_bottom - overlap_top)
    let smaller_area := min (bbox1.width * bbox1.height) (bbox2.width * bbox2.height)
    if 0 < smaller_area then overlap_area / smaller_area else 0

/-- First maximum of a nonempty list under a key, as Python's `max(xs, key=f)`
computes it: later elements replace the running best only when strictly
greater. -/
def pyMaxBy {β : Type} [LinearOrder β] (f : TextBlock → β) (x : TextBlock)
    (xs : List TextBlock) : TextBlock :=
  xs.foldl (fun best b => if f best < f b then b else best) x

/-- Embeds `merge_text_blocks` of `text_block_sorter.py`; the empty input, on
which the Python code would raise, returns `none`. -/
def merge_text_blocks : List TextBlock → Option TextBlock
  | [] => none
  | [b] => some b
  | x :: xs =>
    let base_block := pyMaxBy (fun b => b.confidence) x xs
    let min_x := (xs.map fun b => b.bbox.x0).foldl min x.bbox.x0
    let min_y := (xs.map fun b => b.bbox.y0).foldl min x.bbox.y0
    let max_x := (xs.map fun b => b.bbox.x1).foldl max x.bbox.x1
    let max_y := (xs.map fun b => b.bbox.y1).foldl max x.bbox.y1
    let merged_text := (pyMaxBy (fun b => b.text.length) x xs).text
    let avg_confidence :=
      ((x :: xs).map fun b => b.confidence).sum / ((x :: xs).length : ℚ)
    some { text := merged_text
           bbox := ⟨min_x, min_y, max_x, max_y⟩
           confidence := avg_confidence
           direction := base_block.direction
           block_id := base_block.block_id }

/-- The cluster gathered at anchor `(i, a)` by one pass of the inner loop of
`merge_overlapping_text_blocks`: the anchor itself plus every later
not-yet-consumed block of the same direction whose symmetric overlap with the
anchor reaches the threshold. -/
def clusterOf (blocks : List TextBlock) (t : ℚ) (used : List ℕ) (i : ℕ)
    (a : TextBlock) : List (ℕ × TextBlock) :=
  (i, a) :: (blocks.enum.filter fun jb =>
    decide (i < jb.1) && !(used.contains jb.1) &&
      (a.direction == jb.2.direction) &&
      decide (t ≤ calculate_overlap_ratio a.bbox jb.2.bbox))

/-- Outer loop of `merge_overlapping_text_blocks`: a scan over the enumerated
block list with the consumed-index set `used` (in Python, `used_indices`). -/
def mergeLoop (blocks : List TextBlock) (t : ℚ) :
    List (ℕ × TextBlock) → List ℕ → List TextBlock
  | [], _ => []
  | (i, a) :: rest, used =>
    if used.contains i then mergeLoop blocks t rest used
    else
      let cl := clusterOf blocks t used i a
      if 1 < cl.length then
        (merge_text_blocks (cl.map Prod.snd)).getD a ::
          mergeLoop blocks t rest (used ++ cl.map Prod.fst)
      else
        a :: mergeLoop blocks t rest (used ++ [i])

/-- Embeds `merge_overlapping_text_blocks` of `text_block_sorter.py`. -/
def merge_overlapping_text_blocks (text_blocks : List TextBlock)
    (overlap_threshold : ℚ := 1/2) : List TextBlock :=
  if text_blocks.length ≤ 1 then text_blocks
  else mergeLoop text_blocks overlap_threshold text_blocks.enum []

/-- Embeds `is_horizontal_overlap` of `text_block_sorter.py`. -/
def is_horizontal_overlap (bbox1 bbox2 : BoundingBox) (t : ℚ := 1/2) : Bool :=
  let overlap := max 0 (min bbox1.x1 bbox2.x1 - max bbox1.x0 bbox2.x0)
  decide (bbox1.width * t ≤ overlap) || decide (bbox2.width * t ≤ overlap)

/-- Embeds `is_vertical_overlap` of `text_block_sorter.py`. -/
def is_vertical_overlap (bbox1 bbox2 : BoundingBox) (t : ℚ := 1/2) : Bool :=
  let overlap := max 0 (min bbox1.y1 bbox2.y1 - max bbox1.y0 bbox2.y0)
  decide (bbox1.height * t ≤ overlap) || decide (bbox2.height * t ≤ overlap)

/-- One step of the greedy grouping loops of `sort_vertical_text_blocks` /
`sort_horizontal_text_blocks`: the block joins the first existing group whose
founding member passes the overlap test, else founds a new group at the end. -/
def addToGroups (overlapTest : BoundingBox → BoundingBox → Bool) (b : TextBlock) :
    List (List TextBlock) → List (List TextBlock)
  | [] => [[b]]
  | g :: rest =>
    if overlapTest b.bbox (g.headD b).bbox then (g ++ [b]) :: rest
    else g :: addToGroups overlapTest b rest

/-- The full grouping pass over the input sequence. -/
def buildGroups (overlapTest : BoundingBox → BoundingBox → Bool)
    (text_blocks : List TextBlock) : List (List TextBlock) :=
  text_blocks.foldl (fun gs b => addToGroups overlapTest b gs) []

/-- Center x of the first member of a group (`get_bbox_props(col[0].bbox)[4]`);
junk value 0 on the empty group, which never occurs. -/
def centerXHead (g : List TextBlock) : ℚ :=
  match g with
  | [] => 0
  | b :: _ => (b.bbox.x0 + b.bbox.x1) / 2

/-- Center y of the first member of a group (`get_bbox_props(row[0].bbox)[5]`). -/
def centerYHead (g : List TextBlock) : ℚ :=
  match g with
  | [] => 0
  | b :: _ => (b.bbox.y0 + b.bbox.y1) / 2

/-- Column detection loop of `sort_vertical_text_blocks` (the local `columns`). -/
def verticalColumns (text_blocks : List TextBlock) : List (List TextBlock) :=
  buildGroups (fun p q => is_horizontal_overlap p q) text_blocks

/-- Within-column sort of `sort_vertical_text_blocks`
(`column.sort(key=lambda b: top_y)`).  Python's stable `list.sort(key=…)` is
modelled by the stable `List.insertionSort` with the key order. -/
def verticalColumnsSorted (text_blocks : List TextBlock) : List (List TextBlock) :=
  (verticalColumns text_blocks).map fun col =>
    col.insertionSort fun a b => a.bbox.y0 ≤ b.bbox.y0

/-- Column ordering of `sort_vertical_text_blocks`
(`columns.sort(key=lambda col: -center_x(col[0]))`). -/
def verticalColumnsOrdered (text_blocks : List TextBlock) : List (List TextBlock) :=
  (verticalColumnsSorted text_blocks).insertionSort fun c1 c2 =>
    -centerXHead c1 ≤ -centerXHead c2

/-- Embeds `sort_vertical_text_blocks` of `text_block_sorter.py`. -/
def sort_vertical_text_blocks (text_blocks : List TextBlock) : List TextBlock :=
  if text_blocks = [] then text_blocks
  else (verticalColumnsOrdered text_blocks).flatten

/-- Row detection loop of `sort_horizontal_text_blocks` (the local `rows`). -/
def horizontalRows (text_blocks : List TextBlock) : List (List TextBlock) :=
  buildGroups (fun p q => is_vertical_overlap p q) text_blocks

/-- Within-row sort of `sort_horizontal_text_blocks`
(`row.sort(key=lambda b: left_x)`). -/
def horizontalRowsSorted (text_blocks : List TextBlock) : List (List TextBlock) :=
  (horizontalRows text_blocks).map fun row =>
    row.insertionSort fun a b => a.bbox.x0 ≤ b.bbox.x0

/-- Row ordering of `sort_horizontal_text_blocks`
(`rows.sort(key=lambda row: center_y(row[0]))`). -/
def horizontalRowsOrdered (text_blocks : List TextBlock) : List (List TextBlock) :=
  (horizontalRowsSorted text_blocks).insertionSort fun r1 r2 =>
    centerYHead r1 ≤ centerYHead r2

/-- Embeds `sort_horizontal_text_blocks` of `text_block_sorter.py`. -/
def sort_horizontal_text_blocks (text_blocks : List TextBlock) : List TextBlock :=
  if text_blocks = [] then text_blocks
  else (horizontalRowsOrdered text_blocks).flatten

/-- Embeds `calculate_group_bounding_box` of `text_block_sorter.py`. -/
def calculate_group_bounding_box (text_blocks : List TextBlock) : ℚ × ℚ × ℚ × ℚ :=
  match text_blocks with
  | [] => (0, 0, 0, 0)
  | b :: bs =>
    ((bs.map fun x => x.bbox.x0).foldl min b.bbox.x0,
     (bs.map fun x => x.bbox.y0).foldl min b.bbox.y0,
     (bs.map fun x => x.bbox.x1).foldl max b.bbox.x1,
     (bs.map fun x => x.bbox.y1).foldl max b.bbox.y1)

/-- Final renumbering loop of `sort_text_blocks_by_reading_order`
(`block.block_id = i + 1` over the emitted sequence). -/
def renumberFrom (n : ℤ) : List TextBlock → List TextBlock
  | [] => []
  | b :: bs => { b with block_id := some n } :: renumberFrom (n + 1) bs

/-- The local `merged` of `sort_text_blocks_by_reading_order`. -/
def mergedOf (page : PageOCRResult) : List TextBlock :=
  merge_overlapping_text_blocks page.text_blocks

/-- The local `vertical_blocks` of `sort_text_blocks_by_reading_order`. -/
def verticalOf (page : PageOCRResult) : List TextBlock :=
  (mergedOf page).filter fun b => b.direction == "vertical"

/-- The local `horizontal_blocks` of `sort_text_blocks_by_reading_order`. -/
def horizontalOf (page : PageOCRResult) : List TextBlock :=
  (mergedOf page).filter fun b => b.direction == "horizontal"

/-- Top y coordinate of a fragment group's union bounding box
(`calculate_group_bounding_box(...)[1]`). -/
def groupTop (text_blocks : List TextBlock) : ℚ :=
  (calculate_group_bounding_box text_blocks).2.1

/-- Embeds `sort_text_blocks_by_reading_order` of `text_block_sorter.py`; the
function's locals `merged`, `vertical_blocks`, `horizontal_blocks`,
`vertical_top` and `horizontal_top` are the definitions `mergedOf`,
`verticalOf`, `horizontalOf` and `groupTop` below. -/
def sort_text_blocks_by_reading_order (page_result : PageOCRResult) : PageOCRResult :=
  if page_result.text_blocks = [] then page_result
  else
    let final_sorted_blocks :=
      if verticalOf page_result ≠ [] ∧ horizontalOf page_result ≠ [] then
        if groupTop (verticalOf page_result) ≤ groupTop (horizontalOf page_result) then
          sort_vertical_text_blocks (verticalOf page_result) ++
            sort_horizontal_text_blocks (horizontalOf page_result)
        else
          sort_horizontal_text_blocks (horizontalOf page_result) ++
            sort_vertical_text_blocks (verticalOf page_result)
      else if verticalOf page_result ≠ [] then
        sort_vertical_text_blocks (verticalOf page_result)
      else if horizontalOf page_result ≠ [] then
        sort_horizontal_text_blocks (horizontalOf page_result)
      else []
    { page_result with text_blocks := renumberFrom 1 final_sorted_blocks }

/-- Embeds `sort_document_text_blocks` of `text_block_sorter.py`; the in-place
replacement of each page is modelled by mapping over the page list. -/
def sort_document_text_blocks (document_result : DocumentOCRResult) : DocumentOCRResult :=
  { document_result with
    pages := document_result.pages.map sort_text_blocks_by_reading_order }

/-- Forgets the `block_id` of a block, for comparisons modulo renumbering. -/
def stripId (b : TextBlock) : TextBlock := { b with block_id := none }

def c2x : TextBlock :=
  { text := "ab", bbox := ⟨0, 0, 10, 10⟩, confidence := 9/10,
    direction := "horizontal", block_id := some 1 }

def c2y : TextBlock :=
  { text := "c", bbox := ⟨2, 1, 12, 11⟩, confidence := 4/5,
    direction := "horizontal", block_id := some 2 }

def c3A : TextBlock :=
  { text := "aa", bbox := ⟨0, 0, 10, 10⟩, confidence := 9/10,
    direction := "horizontal", block_id := some 1 }

def c3B : TextBlock :=
  { text := "b", bbox := ⟨4, 0, 14, 10⟩, confidence := 4/5,
    direction := "horizontal", block_id := some 2 }

def c3C : TextBlock :=
  { text := "cccc", bbox := ⟨8, 0, 18, 10⟩, confidence := 7/10,
    direction := "horizontal", block_id := some 3 }

def vA1 : TextBlock :=
  { text := "a1", bbox := ⟨0, 20, 10, 30⟩, confidence := 1, direction := "vertical" }

def vA2 : TextBlock :=
  { text := "a2", bbox := ⟨5, 0, 100, 10⟩, confidence := 1, direction := "vertical" }

def vB : TextBlock :=
  { text := "b", bbox := ⟨45, 0, 57, 10⟩, confidence := 1, direction := "vertical" }

def c4v : TextBlock :=
  { text := "v", bbox := ⟨0, 5, 10, 40⟩, confidence := 1,
    direction := "vertical", block_id := some 7 }

def c4h : TextBlock :=
  { text := "h", bbox := ⟨0, 50, 30, 60⟩, confidence := 1,
    direction := "horizontal", block_id := some 9 }

def c4page : PageOCRResult :=
  { page_number := 2, text_blocks := [c4h, c4v], page_width := 100, page_height := 100 }

def c9v : TextBlock :=
  { text := "v", bbox := ⟨0, 5, 10, 30⟩, confidence := 1, direction := "vertical" }

def c9h : TextBlock :=
  { text := "h", bbox := ⟨20, 5, 40, 15⟩, confidence := 1, direction := "horizontal" }

def c9page : PageOCRResult :=
  { page_number := 1, text_blocks := [c9v, c9h], page_width := 100, page_height := 100 }

theorem removeUpTo_succ_cases (blocks : List TextBlock) (t : ℚ) (m : ℕ) :
    removeUpTo blocks t (m + 1) = removeUpTo blocks t m ∨
      removeUpTo blocks t (m + 1) = removeUpTo blocks t m ++ [m] := by
  rw [removeUpTo]
  cases blocks[m]? with
  | none => exact Or.inl rfl
  | some a =>
    dsimp only
    by_cases hc : (removeUpTo blocks t m).contains m
    · exact Or.inl (by rw [if_pos hc])
    · by_cases ha : blocks.enum.any fun jb =>
          decide (jb.1 ≠ m) && !((removeUpTo blocks t m).contains jb.1) && dedupQualifies t a jb.2
      · exact Or.inr (by rw [if_neg hc, if_pos ha])
      · exact Or.inl (by rw [if_neg hc, if_neg ha])

theorem mem_removeUpTo_lt {blocks : List TextBlock} {t : ℚ} :
    ∀ {n k}, k ∈ removeUpTo blocks t n → k < n := by
  intro n
  induction n with
  | zero => intro k hk; simp [removeUpTo] at hk
  | succ m ih =>
    intro k hk
    rcases removeUpTo_succ_cases blocks t m with he | he
    · rw [he] at hk; exact Nat.lt_succ_of_lt (ih hk)
    · rw [he, List.mem_append] at hk
      rcases hk with hk | hk
      · exact Nat.lt_succ_of_lt (ih hk)
      · simp only [List.mem_singleton] at hk; omega

theorem removeUpTo_mono {blocks : List TextBlock} {t : ℚ} {n m : ℕ} (h : n ≤ m) :
    ∀ {k}, k ∈ removeUpTo blocks t n → k ∈ removeUpTo blocks t m := by
  induction m with
  | zero =>
    intro k hk
    have hn : n = 0 := by omega
    subst hn; exact hk
  | succ p ih =>
    intro k hk
    rcases Nat.lt_or_ge n (p + 1) with hlt | hge
    · have hk2 := ih (by omega) hk
      rcases removeUpTo_succ_cases blocks t p with he | he
      · rw [he]; exact hk2
      · rw [he, List.mem_append]; exact Or.inl hk2
    · have hn : n = p + 1 := by omega
      subst hn; exact hk

theorem nat_contains_iff (l : List ℕ) (k : ℕ) : l.contains k = true ↔ k ∈ l := by
  simp [List.contains, List.elem_iff]

theorem removeUpTo_not_contains_self (blocks : List TextBlock) (t : ℚ) (i : ℕ) :
    (removeUpTo blocks t i).contains i = false := by
  rw [Bool.eq_false_iff, Ne, nat_contains_iff]
  intro hmem
  exact absurd (mem_removeUpTo_lt hmem) (lt_irrefl i)

theorem mem_removeUpTo_succ_self_iff (blocks : List TextBlock) (t : ℚ) (i : ℕ)
    (h : i < blocks.length) :
    i ∈ removeUpTo blocks t (i + 1) ↔
      ∃ j, ∃ hj : j < blocks.length, j ≠ i ∧ j ∉ removeUpTo blocks t i ∧
        dedupQualifies t blocks[i] blocks[j] = true := by
  rw [removeUpTo, List.getElem?_eq_getElem h]
  dsimp only
  rw [if_neg (by rw [removeUpTo_not_contains_self]; exact Bool.false_ne_true)]
  by_cases hany : blocks.enum.any fun jb =>
      decide (jb.1 ≠ i) && !((removeUpTo blocks t i).contains jb.1) &&
        dedupQualifies t blocks[i] jb.2
  · rw [if_pos hany]
    constructor
    · intro _
      rcases List.any_eq_true.mp hany with ⟨jb, hjb_mem, hjb⟩
      have hget : blocks[jb.1]? = some jb.2 := List.mem_enum_iff_getElem?.mp hjb_mem
      rcases List.getElem?_eq_some_iff.mp hget with ⟨hj, hval⟩
      simp only [Bool.and_eq_true, decide_eq_true_eq, Bool.not_eq_true'] at hjb
      refine ⟨jb.1, hj, hjb.1.1, ?_, ?_⟩
      · intro hmem
        rw [(nat_contains_iff _ _).mpr hmem] at hjb
        exact Bool.noConfusion hjb.1.2
      · rw [hval]; exact hjb.2
    · intro _; exact List.mem_append_right _ (List.mem_singleton.mpr rfl)
  · rw [if_neg hany]
    constructor
    · intro hmem
      exact absurd (mem_removeUpTo_lt hmem) (lt_irrefl i)
    · rintro ⟨j, hj, hne, hnotmem, hqual⟩
      exfalso
      apply hany
      refine List.any_eq_true.mpr ⟨(j, blocks[j]), ?_, ?_⟩
      · exact List.mem_enum_iff_getElem?.mpr (by rw [List.getElem?_eq_getElem hj])
      · simp only [Bool.and_eq_true, decide_eq_true_eq, Bool.not_eq_true']
        refine ⟨⟨hne, ?_⟩, hqual⟩
        rw [Bool.eq_false_iff, Ne, nat_contains_iff]
        exact hnotmem

theorem mem_removeUpTo_of_mem_ge {blocks : List TextBlock} {t : ℚ} :
    ∀ {m i}, i < m → i ∈ removeUpTo blocks t m → i ∈ removeUpTo blocks t (i + 1) := by
  intro m
  induction m with
  | zero => intro i hi _; exact absurd hi (Nat.not_lt_zero i)
  | succ p ih =>
    intro i hi hmem
    rcases Nat.lt_or_ge i p with hip | hip
    · rcases removeUpTo_succ_cases blocks t p with he | he
      · rw [he] at hmem; exact ih hip hmem
      · rw [he, List.mem_append] at hmem
        rcases hmem with hm | hm
        · exact ih hip hm
        · simp only [List.mem_singleton] at hm; omega
    · have hieq : i = p := by omega
      subst hieq; exact hmem

theorem mem_blocksToRemove_iff (blocks : List TextBlock) (t : ℚ) (i : ℕ)
    (h : i < blocks.length) :
    i ∈ blocksToRemove blocks t ↔
      ∃ j, ∃ hj : j < blocks.length, j ≠ i ∧ j ∉ removeUpTo blocks t i ∧
        dedupQualifies t blocks[i] blocks[j] = true := by
  rw [← mem_removeUpTo_succ_self_iff blocks t i h]
  constructor
  · intro hmem; exact mem_removeUpTo_of_mem_ge h hmem
  · intro hmem; exact removeUpTo_mono (by omega) hmem

theorem dedupQualifies_self (t : ℚ) (a : TextBlock) : dedupQualifies t a a = false := by
  unfold dedupQualifies
  have : decide (a.bbox.area < a.bbox.area) = false := by
    simp
  rw [this, Bool.and_false]

theorem survivors_not_qualify (blocks : List TextBlock) (t : ℚ) {i j : ℕ}
    (hi : i < blocks.length) (hj : j < blocks.length) (hij : j ≠ i)
    (hsi : i ∉ blocksToRemove blocks t) (hsj : j ∉ blocksToRemove blocks t) :
    dedupQualifies t blocks[i] blocks[j] = false := by
  rcases hqb : dedupQualifies t blocks[i] blocks[j] with _ | _
  · rfl
  · exfalso
    apply hsi
    rw [mem_blocksToRemove_iff blocks t i hi]
    refine ⟨j, hj, hij, ?_, hqb⟩
    intro hm
    exact hsj (removeUpTo_mono (Nat.le_of_lt hi) hm)

theorem removeUpTo_eq_nil_of_no_qualify (l : List TextBlock) (t : ℚ)
    (hnq : ∀ a b, a ∈ l → b ∈ l → dedupQualifies t a b = false) :
    ∀ n, removeUpTo l t n = [] := by
  intro n
  induction n with
  | zero => rfl
  | succ m ih =>
    rw [removeUpTo, ih]
    cases hm : l[m]? with
    | none => rfl
    | some a =>
      dsimp only
      rw [if_neg (by simp), if_neg ?_]
      intro hany
      rcases List.any_eq_true.mp hany with ⟨jb, hjb_mem, hjb⟩
      simp only [Bool.and_eq_true] at hjb
      have hbmem : jb.2 ∈ l := by
        have := List.mem_enum_iff_getElem?.mp hjb_mem
        exact List.getElem?_mem this
      have hamem : a ∈ l := List.getElem?_mem hm
      rw [hnq a jb.2 hamem hbmem] at hjb
      exact Bool.noConfusion hjb.2

theorem mem_kept_iff (blocks : List TextBlock) (rem : List ℕ) (a : TextBlock) :
    a ∈ (blocks.enum.filter fun ib => !(rem.contains ib.1)).map Prod.snd ↔
      ∃ i, ∃ h : i < blocks.length, rem.contains i = false ∧ blocks[i] = a := by
  constructor
  · intro hm
    rcases List.mem_map.mp hm with ⟨ib, hib, hsnd⟩
    rcases List.mem_filter.mp hib with ⟨hmem, hcond⟩
    have hget := List.mem_enum_iff_getElem?.mp hmem
    rcases List.getElem?_eq_some_iff.mp hget with ⟨h, hval⟩
    refine ⟨ib.1, h, ?_, by rw [hval, hsnd]⟩
    cases hcb : rem.contains ib.1
    · rfl
    · rw [hcb] at hcond; exact Bool.noConfusion hcond
  · rintro ⟨i, h, hcon, hval⟩
    refine List.mem_map.mpr ⟨(i, a), ?_, rfl⟩
    refine List.mem_filter.mpr ⟨?_, ?_⟩
    · exact List.mem_enum_iff_getElem?.mpr (by rw [List.getElem?_eq_getElem h, hval])
    · rw [hcon]; rfl

theorem kept_sublist (blocks : List TextBlock) (p : ℕ × TextBlock → Bool) :
    ((blocks.enum.filter p).map Prod.snd).Sublist blocks := by
  have h2 := (List.filter_sublist blocks.enum (p := p)).map Prod.snd
  have h3 : blocks.enum.map Prod.snd = blocks := List.enumFrom_map_snd 0 blocks
  rwa [h3] at h2

theorem dedup_dedup (page : PageOCRResult) (t : ℚ) :
    ((page.remove_duplicate_blocks t).1.remove_duplicate_blocks t).1 =
      (page.remove_duplicate_blocks t).1 := by
  by_cases hlen : page.text_blocks.length ≤ 1
  · have h1 : page.remove_duplicate_blocks t = (page, 0) := by
      unfold PageOCRResult.remove_duplicate_blocks; rw [if_pos hlen]
    rw [h1]
    show (page.remove_duplicate_blocks t).1 = page
    unfold PageOCRResult.remove_duplicate_blocks
    rw [if_pos hlen]
  · have hkept : (page.remove_duplicate_blocks t).1.text_blocks =
        (page.text_blocks.enum.filter fun ib =>
          !((blocksToRemove page.text_blocks t).contains ib.1)).map Prod.snd := by
      conv_lhs => rw [PageOCRResult.remove_duplicate_blocks]
      rw [if_neg hlen]
    have hnq : ∀ a b, a ∈ (page.remove_duplicate_blocks t).1.text_blocks →
        b ∈ (page.remove_duplicate_blocks t).1.text_blocks → dedupQualifies t a b = false := by
      intro a b ha hb
      rw [hkept, mem_kept_iff] at ha hb
      rcases ha with ⟨i, hi, hci, hvi⟩
      rcases hb with ⟨j, hj, hcj, hvj⟩
      by_cases hij : j = i
      · subst hij
        have hab : a = b := by rw [← hvi, ← hvj]
        rw [hab]
        exact dedupQualifies_self t b
      · have hq := survivors_not_qualify page.text_blocks t hi hj hij
          (by intro hm; rw [(nat_contains_iff _ _).mpr hm] at hci; exact Bool.noConfusion hci)
          (by intro hm; rw [(nat_contains_iff _ _).mpr hm] at hcj; exact Bool.noConfusion hcj)
        rw [hvi, hvj] at hq
        exact hq
    have hrem : blocksToRemove (page.remove_duplicate_blocks t).1.text_blocks t = [] :=
      removeUpTo_eq_nil_of_no_qualify _ t hnq _
    by_cases h2 : (page.remove_duplicate_blocks t).1.text_blocks.length ≤ 1
    · conv_lhs => rw [PageOCRResult.remove_duplicate_blocks]
      rw [if_pos h2]
    · conv_lhs => rw [PageOCRResult.remove_duplicate_blocks]
      rw [if_neg h2]
      dsimp only
      rw [hrem]
      have hfil : ((page.remove_duplicate_blocks t).1.text_blocks.enum.filter fun ib =>
          !(([] : List ℕ).contains ib.1)).map Prod.snd =
          (page.remove_duplicate_blocks t).1.text_blocks := by
        have he : ((page.remove_duplicate_blocks t).1.text_blocks.enum.filter fun ib =>
            !(([] : List ℕ).contains ib.1)) = (page.remove_duplicate_blocks t).1.text_blocks.enum := by
          simp
        rw [he]
        exact List.enumFrom_map_snd 0 _
      rw [hfil]

theorem remove_duplicate_blocks_of_le (page : PageOCRResult) (t : ℚ)
    (h : page.text_blocks.length ≤ 1) : page.remove_duplicate_blocks t = (page, 0) := by
  unfold PageOCRResult.remove_duplicate_blocks; rw [if_pos h]

theorem remove_duplicate_blocks_kept (page : PageOCRResult) (t : ℚ)
    (h : ¬ page.text_blocks.length ≤ 1) :
    (page.remove_duplicate_blocks t).1.text_blocks =
      (page.text_blocks.enum.filter fun ib =>
        !((blocksToRemove page.text_blocks t).contains ib.1)).map Prod.snd := by
  conv_lhs => rw [PageOCRResult.remove_duplicate_blocks]
  rw [if_neg h]

theorem remove_duplicate_blocks_count (page : PageOCRResult) (t : ℚ)
    (h : ¬ page.text_blocks.length ≤ 1) :
    (page.remove_duplicate_blocks t).2 =
      page.text_blocks.length - ((page.text_blocks.enum.filter fun ib =>
        !((blocksToRemove page.text_blocks t).contains ib.1)).map Prod.snd).length := by
  conv_lhs => rw [PageOCRResult.remove_duplicate_blocks]
  rw [if_neg h]

/-- C1: the duplicate filter removes exactly the fragments that, at their turn in
the single forward pass, see another not-yet-removed fragment of strictly larger
area overlapping them at least to the threshold; the surviving order is
preserved, the removed count is returned, and short inputs are a no-op. -/
theorem C1_remove_duplicate_blocks_spec (page : PageOCRResult) (t : ℚ) :
    ((page.remove_duplicate_blocks t).1.text_blocks.Sublist page.text_blocks) ∧
    ((page.remove_duplicate_blocks t).2 =
      page.text_blocks.length - (page.remove_duplicate_blocks t).1.text_blocks.length) ∧
    (page.text_blocks.length ≤ 1 → page.remove_duplicate_blocks t = (page, 0)) ∧
    (∀ i, ∀ h : i < page.text_blocks.length,
      (i ∈ blocksToRemove page.text_blocks t ↔
        ∃ j, ∃ hj : j < page.text_blocks.length, j ≠ i ∧
          j ∉ removeUpTo page.text_blocks t i ∧
          dedupQualifies t page.text_blocks[i] page.text_blocks[j] = true)) ∧
    (¬ page.text_blocks.length ≤ 1 →
      (page.remove_duplicate_blocks t).1.text_blocks =
        (page.text_blocks.enum.filter fun ib =>
          !((blocksToRemove page.text_blocks t).contains ib.1)).map Prod.snd) := by
  refine ⟨?_, ?_, remove_duplicate_blocks_of_le page t, mem_blocksToRemove_iff page.text_blocks t,
    remove_duplicate_blocks_kept page t⟩
  · by_cases hlen : page.text_blocks.length ≤ 1
    · rw [remove_duplicate_blocks_of_le page t hlen]
    · rw [remove_duplicate_blocks_kept page t hlen]
      exact kept_sublist _ _
  · by_cases hlen : page.text_blocks.length ≤ 1
    · rw [remove_duplicate_blocks_of_le page t hlen]
      exact (Nat.sub_self _).symm
    · rw [remove_duplicate_blocks_count page t hlen, remove_duplicate_blocks_kept page t hlen]

/-- C6: running the duplicate filter a second time with the same threshold on its
own output removes nothing further. -/
theorem C6_dedup_weakly_idempotent (page : PageOCRResult) (t : ℚ) :
    ((page.remove_duplicate_blocks t).1.remove_duplicate_blocks t).1.text_blocks.length =
      (page.remove_duplicate_blocks t).1.text_blocks.length := by
  rw [dedup_dedup]

theorem pyMaxBy_mem {β : Type} [LinearOrder β] (f : TextBlock → β) :
    ∀ (xs : List TextBlock) (x : TextBlock), pyMaxBy f x xs ∈ x :: xs := by
  intro xs
  induction xs with
  | nil => intro x; exact List.mem_singleton.mpr rfl
  | cons y ys ih =>
    intro x
    by_cases hc : f x < f y
    · have hrw : pyMaxBy f x (y :: ys) = pyMaxBy f y ys := by
        show pyMaxBy f (if f x < f y then y else x) ys = pyMaxBy f y ys
        rw [if_pos hc]
      rw [hrw]
      exact List.mem_cons_of_mem x (ih y)
    · have hrw : pyMaxBy f x (y :: ys) = pyMaxBy f x ys := by
        show pyMaxBy f (if f x < f y then y else x) ys = pyMaxBy f x ys
        rw [if_neg hc]
      rw [hrw]
      rcases List.mem_cons.mp (ih x) with hh | hh
      · rw [hh]; exact List.mem_cons_self _ _
      · exact List.mem_cons_of_mem x (List.mem_cons_of_mem y hh)

theorem pyMaxBy_le {β : Type} [LinearOrder β] (f : TextBlock → β) :
    ∀ (xs : List TextBlock) (x m : TextBlock), m ∈ x :: xs → f m ≤ f (pyMaxBy f x xs) := by
  intro xs
  induction xs with
  | nil =>
    intro x m hm
    rw [List.mem_singleton] at hm
    subst hm
    exact le_refl _
  | cons y ys ih =>
    intro x m hm
    by_cases hc : f x < f y
    · have hrw : pyMaxBy f x (y :: ys) = pyMaxBy f y ys := by
        show pyMaxBy f (if f x < f y then y else x) ys = pyMaxBy f y ys
        rw [if_pos hc]
      rw [hrw]
      rcases List.mem_cons.mp hm with hh | hh
      · subst hh
        exact le_trans (le_of_lt hc) (ih y y (List.mem_cons_self _ _))
      · exact ih y m hh
    · have hrw : pyMaxBy f x (y :: ys) = pyMaxBy f x ys := by
        show pyMaxBy f (if f x < f y then y else x) ys = pyMaxBy f x ys
        rw [if_neg hc]
      rw [hrw]
      rcases List.mem_cons.mp hm with hh | hh
      · subst hh; exact ih _ _ (List.mem_cons_self _ _)
      · rcases List.mem_cons.mp hh with hh2 | hh2
        · subst hh2
          exact le_trans (le_of_not_lt hc) (ih _ _ (List.mem_cons_self _ _))
        · exact ih x m (List.mem_cons_of_mem x hh2)

theorem foldl_min_le_init : ∀ (l : List ℚ) (a : ℚ), l.foldl min a ≤ a := by
  intro l
  induction l with
  | nil => intro a; exact le_refl a
  | cons b l ih =>
    intro a
    calc (b :: l).foldl min a = l.foldl min (min a b) := rfl
    _ ≤ min a b := ih _
    _ ≤ a := min_le_left a b

theorem foldl_min_le_mem : ∀ (l : List ℚ) (a b : ℚ), b ∈ l → l.foldl min a ≤ b := by
  intro l
  induction l with
  | nil => intro a b hb; exact absurd hb (List.not_mem_nil b)
  | cons c l ih =>
    intro a b hb
    rcases List.mem_cons.mp hb with hh | hh
    · subst hh
      calc (b :: l).foldl min a = l.foldl min (min a b) := rfl
      _ ≤ min a b := foldl_min_le_init _ _
      _ ≤ b := min_le_right a b
    · exact ih (min a c) b hh

theorem foldl_min_attained : ∀ (l : List ℚ) (a : ℚ), l.foldl min a = a ∨ l.foldl min a ∈ l := by
  intro l
  induction l with
  | nil => intro a; exact Or.inl rfl
  | cons b l ih =>
    intro a
    rcases ih (min a b) with hh | hh
    · rcases le_total a b with hab | hab
      · left
        show l.foldl min (min a b) = a
        rw [hh, min_eq_left hab]
      · right
        show l.foldl min (min a b) ∈ b :: l
        rw [hh, min_eq_right hab]
        exact List.mem_cons_self b l
    · right; exact List.mem_cons_of_mem b hh

theorem foldl_max_ge_init : ∀ (l : List ℚ) (a : ℚ), a ≤ l.foldl max a := by
  intro l
  induction l with
  | nil => intro a; exact le_refl a
  | cons b l ih =>
    intro a
    calc a ≤ max a b := le_max_left a b
    _ ≤ l.foldl max (max a b) := ih _
    _ = (b :: l).foldl max a := rfl

theorem foldl_max_ge_mem : ∀ (l : List ℚ) (a b : ℚ), b ∈ l → b ≤ l.foldl max a := by
  intro l
  induction l with
  | nil => intro a b hb; exact absurd hb (List.not_mem_nil b)
  | cons c l ih =>
    intro a b hb
    rcases List.mem_cons.mp hb with hh | hh
    · subst hh
      calc b ≤ max a b := le_max_right a b
      _ ≤ l.foldl max (max a b) := foldl_max_ge_init _ _
      _ = (b :: l).foldl max a := rfl
    · exact ih (max a c) b hh

theorem foldl_max_attained : ∀ (l : List ℚ) (a : ℚ), l.foldl max a = a ∨ l.foldl max a ∈ l := by
  intro l
  induction l with
  | nil => intro a; exact Or.inl rfl
  | cons b l ih =>
    intro a
    rcases ih (max a b) with hh | hh
    · rcases le_total a b with hab | hab
      · right
        show l.foldl max (max a b) ∈ b :: l
        rw [hh, max_eq_right hab]
        exact List.mem_cons_self b l
      · left
        show l.foldl max (max a b) = a
        rw [hh, max_eq_left hab]
    · right; exact List.mem_cons_of_mem b hh

/-- C2: a merged cluster of two or more fragments gets the union bounding
rectangle, the text of a longest member, the mean confidence, and the direction
and provisional id of a highest-confidence member. -/
theorem C2_merge_text_blocks_synthesis (x : TextBlock) (xs : List TextBlock) (hxs : xs ≠ []) :
    ∃ mb, merge_text_blocks (x :: xs) = some mb ∧
      (∀ m ∈ x :: xs, mb.bbox.x0 ≤ m.bbox.x0 ∧ mb.bbox.y0 ≤ m.bbox.y0 ∧
        m.bbox.x1 ≤ mb.bbox.x1 ∧ m.bbox.y1 ≤ mb.bbox.y1) ∧
      ((∃ m ∈ x :: xs, mb.bbox.x0 = m.bbox.x0) ∧ (∃ m ∈ x :: xs, mb.bbox.y0 = m.bbox.y0) ∧
        (∃ m ∈ x :: xs, mb.bbox.x1 = m.bbox.x1) ∧ (∃ m ∈ x :: xs, mb.bbox.y1 = m.bbox.y1)) ∧
      (∃ m ∈ x :: xs, mb.text = m.text ∧ ∀ p ∈ x :: xs, p.text.length ≤ m.text.length) ∧
      (mb.confidence = ((x :: xs).map fun b => b.confidence).sum / ((x :: xs).length : ℚ)) ∧
      (∃ base ∈ x :: xs, (∀ p ∈ x :: xs, p.confidence ≤ base.confidence) ∧
        mb.direction = base.direction ∧ mb.block_id = base.block_id) := by
  obtain ⟨y, ys, rfl⟩ : ∃ y ys, xs = y :: ys := by
    cases xs with
    | nil => exact absurd rfl hxs
    | cons y ys => exact ⟨y, ys, rfl⟩
  refine ⟨_, rfl, ?_, ?_, ?_, rfl, ?_⟩
  · intro m hm
    rcases List.mem_cons.mp hm with hh | hh
    · subst hh
      exact ⟨foldl_min_le_init _ _, foldl_min_le_init _ _,
        foldl_max_ge_init _ _, foldl_max_ge_init _ _⟩
    · exact ⟨foldl_min_le_mem _ _ _ (List.mem_map_of_mem _ hh),
        foldl_min_le_mem _ _ _ (List.mem_map_of_mem _ hh),
        foldl_max_ge_mem _ _ _ (List.mem_map_of_mem _ hh),
        foldl_max_ge_mem _ _ _ (List.mem_map_of_mem _ hh)⟩
  · refine ⟨?_, ?_, ?_, ?_⟩
    · rcases foldl_min_attained ((y :: ys).map fun b => b.bbox.x0) x.bbox.x0 with hh | hh
      · exact ⟨x, List.mem_cons_self _ _, hh⟩
      · rcases List.mem_map.mp hh with ⟨m, hm, hv⟩
        exact ⟨m, List.mem_cons_of_mem x hm, hv.symm⟩
    · rcases foldl_min_attained ((y :: ys).map fun b => b.bbox.y0) x.bbox.y0 with hh | hh
      · exact ⟨x, List.mem_cons_self _ _, hh⟩
      · rcases List.mem_map.mp hh with ⟨m, hm, hv⟩
        exact ⟨m, List.mem_cons_of_mem x hm, hv.symm⟩
    · rcases foldl_max_attained ((y :: ys).map fun b => b.bbox.x1) x.bbox.x1 with hh | hh
      · exact ⟨x, List.mem_cons_self _ _, hh⟩
      · rcases List.mem_map.mp hh with ⟨m, hm, hv⟩
        exact ⟨m, List.mem_cons_of_mem x hm, hv.symm⟩
    · rcases foldl_max_attained ((y :: ys).map fun b => b.bbox.y1) x.bbox.y1 with hh | hh
      · exact ⟨x, List.mem_cons_self _ _, hh⟩
      · rcases List.mem_map.mp hh with ⟨m, hm, hv⟩
        exact ⟨m, List.mem_cons_of_mem x hm, hv.symm⟩
  · exact ⟨pyMaxBy (fun b => b.text.length) x (y :: ys), pyMaxBy_mem _ _ _, rfl,
      fun p hp => pyMaxBy_le (fun b => b.text.length) (y :: ys) x p hp⟩
  · exact ⟨pyMaxBy (fun b => b.confidence) x (y :: ys), pyMaxBy_mem _ _ _,
      (fun p hp => pyMaxBy_le (fun b => b.confidence) (y :: ys) x p hp), rfl, rfl⟩

/-- Witness for C2 at a concrete two-member cluster. -/
theorem C2_merge_text_blocks_synthesis_witness :
    ([c2y] ≠ ([] : List TextBlock)) ∧ ∃ mb, merge_text_blocks (c2x :: [c2y]) = some mb := by
  refine ⟨by simp, ?_⟩
  obtain ⟨mb, hmb, -⟩ := C2_merge_text_blocks_synthesis c2x [c2y] (by simp)
  exact ⟨mb, hmb⟩

theorem mem_clusterOf_iff (blocks : List TextBlock) (t : ℚ) (used : List ℕ) (i : ℕ)
    (a : TextBlock) (j : ℕ) (b : TextBlock) :
    (j, b) ∈ clusterOf blocks t used i a ↔
      (j = i ∧ b = a) ∨
      (blocks[j]? = some b ∧ i < j ∧ used.contains j = false ∧
        a.direction = b.direction ∧ t ≤ calculate_overlap_ratio a.bbox b.bbox) := by
  unfold clusterOf
  rw [List.mem_cons]
  constructor
  · rintro (heq | hmem)
    · left
      exact ⟨congrArg Prod.fst heq, congrArg Prod.snd heq⟩
    · right
      rcases List.mem_filter.mp hmem with ⟨henum, hcond⟩
      have hget := List.mem_enum_iff_getElem?.mp henum
      simp only [Bool.and_eq_true, decide_eq_true_eq, Bool.not_eq_true', beq_iff_eq] at hcond
      exact ⟨hget, hcond.1.1.1, hcond.1.1.2, hcond.1.2, hcond.2⟩
  · rintro (⟨hj, hb⟩ | ⟨hget, hij, hused, hdir, ht⟩)
    · left; rw [hj, hb]
    · right
      refine List.mem_filter.mpr ⟨List.mem_enum_iff_getElem?.mpr hget, ?_⟩
      simp only [Bool.and_eq_true, decide_eq_true_eq, Bool.not_eq_true', beq_iff_eq]
      exact ⟨⟨⟨hij, hused⟩, hdir⟩, ht⟩

set_option maxHeartbeats 2000000 in
/-- C3: a cluster contains exactly its anchor plus the later not-yet-consumed
same-direction fragments whose symmetric overlap with the anchor itself reaches
the threshold; concretely, `c3C` overlaps `c3B` enough but not `c3A`, so it is
left out of the anchor cluster of `c3A` and survives as its own anchor. -/
theorem C3_anchor_only_clustering :
    (∀ (blocks : List TextBlock) (t : ℚ) (used : List ℕ) (i : ℕ) (a : TextBlock)
        (j : ℕ) (b : TextBlock),
      (j, b) ∈ clusterOf blocks t used i a ↔
        (j = i ∧ b = a) ∨
        (blocks[j]? = some b ∧ i < j ∧ used.contains j = false ∧
          a.direction = b.direction ∧ t ≤ calculate_overlap_ratio a.bbox b.bbox)) ∧
    ((1, c3B) ∈ clusterOf [c3A, c3B, c3C] (1/2) [] 0 c3A) ∧
    ((2, c3C) ∉ clusterOf [c3A, c3B, c3C] (1/2) [] 0 c3A) ∧
    ((1/2 : ℚ) ≤ calculate_overlap_ratio c3B.bbox c3C.bbox) ∧
    merge_overlapping_text_blocks [c3A, c3B, c3C] (1/2) =
      [{ text := "aa", bbox := ⟨0, 0, 14, 10⟩, confidence := 17/20,
         direction := "horizontal", block_id := some 1 }, c3C] := by
  refine ⟨mem_clusterOf_iff, ?_, ?_, ?_, ?_⟩
  · norm_num [clusterOf, calculate_overlap_ratio, List.enum, List.enumFrom,
      c3A, c3B, c3C, BoundingBox.width, BoundingBox.height]
  · norm_num [clusterOf, calculate_overlap_ratio, List.enum, List.enumFrom,
      c3A, c3B, c3C, BoundingBox.width, BoundingBox.height]
  · norm_num [calculate_overlap_ratio, c3B, c3C, BoundingBox.width, BoundingBox.height]
  · norm_num [merge_overlapping_text_blocks, mergeLoop, clusterOf, calculate_overlap_ratio,
      merge_text_blocks, pyMaxBy, c3A, c3B, c3C, List.enum, List.enumFrom,
      BoundingBox.width, BoundingBox.height]
    decide

theorem insertionSort_headD_key_le {α : Type} (f : α → ℚ) (l : List α) (d : α) :
    ∀ b ∈ l.insertionSort fun x y => f x ≤ f y,
      f ((l.insertionSort fun x y => f x ≤ f y).headD d) ≤ f b := by
  haveI htot : IsTotal α fun x y => f x ≤ f y := ⟨fun a b => le_total (f a) (f b)⟩
  haveI htr : IsTrans α fun x y => f x ≤ f y := ⟨fun a b c hab hbc => le_trans hab hbc⟩
  intro b hb
  have hs := List.sorted_insertionSort (fun x y => f x ≤ f y) l
  cases hsort : l.insertionSort fun x y => f x ≤ f y with
  | nil => rw [hsort] at hb; exact absurd hb (List.not_mem_nil b)
  | cons h rest =>
    rw [hsort] at hb hs
    rcases List.mem_cons.mp hb with hh | hh
    · rw [hh]; exact le_refl _
    · exact List.rel_of_sorted_cons hs b hh

set_option maxHeartbeats 2000000 in
/-- C10: ordering keys of columns and rows come from one member after the
within-group sort — each ordered column's head is a topmost member and columns
are pairwise ordered by descending center x of those heads (rows: head is a
leftmost member, ascending center y of heads).  On the concrete input
`[vA1, vA2, vB]` this key choice puts the `vA1`/`vA2` column first, while
ordering by the founding member's center x (5 against 51) or by the column's
union-box center x (50 against 51) would emit `vB` first. -/
theorem C10_group_ordering_keys :
    (∀ blocks : List TextBlock,
      List.Perm (verticalColumnsOrdered blocks) (verticalColumnsSorted blocks) ∧
      List.Pairwise (fun c1 c2 => centerXHead c2 ≤ centerXHead c1)
        (verticalColumnsOrdered blocks) ∧
      (∀ col ∈ verticalColumnsOrdered blocks, ∀ b ∈ col,
        (col.headD b).bbox.y0 ≤ b.bbox.y0) ∧
      (blocks ≠ [] →
        sort_vertical_text_blocks blocks = (verticalColumnsOrdered blocks).flatten)) ∧
    (∀ blocks : List TextBlock,
      List.Perm (horizontalRowsOrdered blocks) (horizontalRowsSorted blocks) ∧
      List.Pairwise (fun r1 r2 => centerYHead r1 ≤ centerYHead r2)
        (horizontalRowsOrdered blocks) ∧
      (∀ row ∈ horizontalRowsOrdered blocks, ∀ b ∈ row,
        (row.headD b).bbox.x0 ≤ b.bbox.x0) ∧
      (blocks ≠ [] →
        sort_horizontal_text_blocks blocks = (horizontalRowsOrdered blocks).flatten)) ∧
    sort_vertical_text_blocks [vA1, vA2, vB] = [vA2, vA1, vB] ∧
    [vA2, vA1, vB] ≠ [vB, vA2, vA1] := by
  refine ⟨?_, ?_, ?_, by decide⟩
  · intro blocks
    refine ⟨List.perm_insertionSort _ _, ?_, ?_, ?_⟩
    · haveI : IsTotal (List TextBlock) fun c1 c2 => -centerXHead c1 ≤ -centerXHead c2 :=
        ⟨fun a b => le_total _ _⟩
      haveI : IsTrans (List TextBlock) fun c1 c2 => -centerXHead c1 ≤ -centerXHead c2 :=
        ⟨fun a b c hab hbc => le_trans hab hbc⟩
      have hs := List.sorted_insertionSort
        (fun c1 c2 => -centerXHead c1 ≤ -centerXHead c2) (verticalColumnsSorted blocks)
      exact hs.imp fun h => neg_le_neg_iff.mp h
    · intro col hcol b hb
      have hcol2 : col ∈ verticalColumnsSorted blocks :=
        (List.perm_insertionSort _ _).mem_iff.mp hcol
      rcases List.mem_map.mp hcol2 with ⟨orig, _, heq⟩
      rw [← heq] at hb ⊢
      exact insertionSort_headD_key_le (fun x => x.bbox.y0) orig b b hb
    · intro hb
      rw [sort_vertical_text_blocks, if_neg hb]
  · intro blocks
    refine ⟨List.perm_insertionSort _ _, ?_, ?_, ?_⟩
    · haveI : IsTotal (List TextBlock) fun r1 r2 => centerYHead r1 ≤ centerYHead r2 :=
        ⟨fun a b => le_total _ _⟩
      haveI : IsTrans (List TextBlock) fun r1 r2 => centerYHead r1 ≤ centerYHead r2 :=
        ⟨fun a b c hab hbc => le_trans hab hbc⟩
      exact List.sorted_insertionSort
        (fun r1 r2 => centerYHead r1 ≤ centerYHead r2) (horizontalRowsSorted blocks)
    · intro row hrow b hb
      have hrow2 : row ∈ horizontalRowsSorted blocks :=
        (List.perm_insertionSort _ _).mem_iff.mp hrow
      rcases List.mem_map.mp hrow2 with ⟨orig, _, heq⟩
      rw [← heq] at hb ⊢
      exact insertionSort_headD_key_le (fun x => x.bbox.x0) orig b b hb
    · intro hb
      rw [sort_horizontal_text_blocks, if_neg hb]
  · norm_num [sort_vertical_text_blocks, verticalColumnsOrdered, verticalColumnsSorted,
      verticalColumns, buildGroups, addToGroups, is_horizontal_overlap, centerXHead,
      BoundingBox.width, vA1, vA2, vB, List.insertionSort, List.orderedInsert,
      List.cons_ne_nil]

theorem renumberFrom_length : ∀ (l : List TextBlock) (n : ℤ),
    (renumberFrom n l).length = l.length := by
  intro l
  induction l with
  | nil => intro n; rfl
  | cons b bs ih =>
    intro n
    show (renumberFrom (n + 1) bs).length + 1 = bs.length + 1
    rw [ih]

theorem renumberFrom_map_stripId : ∀ (l : List TextBlock) (n : ℤ),
    (renumberFrom n l).map stripId = l.map stripId := by
  intro l
  induction l with
  | nil => intro n; rfl
  | cons b bs ih =>
    intro n
    show stripId { b with block_id := some n } :: (renumberFrom (n + 1) bs).map stripId =
      stripId b :: bs.map stripId
    rw [ih]
    rfl

theorem renumberFrom_map_block_id : ∀ (l : List TextBlock) (n : ℤ),
    (renumberFrom n l).map (fun b => b.block_id) =
      (List.range l.length).map fun k : ℕ => some (n + (k : ℤ)) := by
  intro l
  induction l with
  | nil => intro n; rfl
  | cons b bs ih =>
    intro n
    show some n :: (renumberFrom (n + 1) bs).map (fun b => b.block_id) = _
    rw [ih (n + 1), List.length_cons, List.range_succ_eq_map, List.map_cons, List.map_map]
    congr 1
    · simp
    · apply List.map_congr_left
      intro k _
      simp only [Function.comp_apply]
      congr 1
      push_cast
      ring

theorem mergedOf_of_nil (page : PageOCRResult) (h : page.text_blocks = []) :
    mergedOf page = [] := by
  unfold mergedOf merge_overlapping_text_blocks
  rw [h]
  rfl

theorem textBlocks_ne_nil_of_vertical (page : PageOCRResult)
    (hv : verticalOf page ≠ []) : page.text_blocks ≠ [] := by
  intro hb
  apply hv
  unfold verticalOf
  rw [mergedOf_of_nil page hb]
  rfl

theorem textBlocks_ne_nil_of_horizontal (page : PageOCRResult)
    (hh : horizontalOf page ≠ []) : page.text_blocks ≠ [] := by
  intro hb
  apply hh
  unfold horizontalOf
  rw [mergedOf_of_nil page hb]
  rfl

theorem reading_order_v_first (page : PageOCRResult)
    (hv : verticalOf page ≠ []) (hh : horizontalOf page ≠ [])
    (hle : groupTop (verticalOf page) ≤ groupTop (horizontalOf page)) :
    (sort_text_blocks_by_reading_order page).text_blocks =
      renumberFrom 1 (sort_vertical_text_blocks (verticalOf page) ++
        sort_horizontal_text_blocks (horizontalOf page)) := by
  unfold sort_text_blocks_by_reading_order
  rw [if_neg (textBlocks_ne_nil_of_vertical page hv)]
  dsimp only
  rw [if_pos ⟨hv, hh⟩, if_pos hle]

theorem reading_order_h_first (page : PageOCRResult)
    (hv : verticalOf page ≠ []) (hh : horizontalOf page ≠ [])
    (hlt : groupTop (horizontalOf page) < groupTop (verticalOf page)) :
    (sort_text_blocks_by_reading_order page).text_blocks =
      renumberFrom 1 (sort_horizontal_text_blocks (horizontalOf page) ++
        sort_vertical_text_blocks (verticalOf page)) := by
  unfold sort_text_blocks_by_reading_order
  rw [if_neg (textBlocks_ne_nil_of_vertical page hv)]
  dsimp only
  rw [if_pos ⟨hv, hh⟩, if_neg (not_le.mpr hlt)]

theorem reading_order_v_only (page : PageOCRResult)
    (hv : verticalOf page ≠ []) (hh : horizontalOf page = []) :
    (sort_text_blocks_by_reading_order page).text_blocks =
      renumberFrom 1 (sort_vertical_text_blocks (verticalOf page)) := by
  unfold sort_text_blocks_by_reading_order
  rw [if_neg (textBlocks_ne_nil_of_vertical page hv)]
  dsimp only
  rw [if_neg (fun hc => hc.2 hh), if_pos hv]

theorem reading_order_h_only (page : PageOCRResult)
    (hh : horizontalOf page ≠ []) (hv : verticalOf page = []) :
    (sort_text_blocks_by_reading_order page).text_blocks =
      renumberFrom 1 (sort_horizontal_text_blocks (horizontalOf page)) := by
  unfold sort_text_blocks_by_reading_order
  rw [if_neg (textBlocks_ne_nil_of_horizontal page hh)]
  dsimp only
  rw [if_neg (fun hc => hc.1 hv), if_neg (fun hvne => hvne hv), if_pos hh]

set_option maxHeartbeats 2000000 in
/-- C4: with both directions present the page sorter emits the direction group
with the smaller union-box top y entirely before the other group, never
interleaving; a single-direction page emits that group alone.  On the concrete
page `c4page` (vertical top 5, horizontal top 50) the vertical block is emitted
first. -/
theorem C4_direction_groups_binary_split :
    (∀ page : PageOCRResult,
      (verticalOf page ≠ [] → horizontalOf page ≠ [] →
        ((groupTop (verticalOf page) < groupTop (horizontalOf page) →
          (sort_text_blocks_by_reading_order page).text_blocks.map stripId =
            (sort_vertical_text_blocks (verticalOf page) ++
              sort_horizontal_text_blocks (horizontalOf page)).map stripId) ∧
         (groupTop (horizontalOf page) < groupTop (verticalOf page) →
          (sort_text_blocks_by_reading_order page).text_blocks.map stripId =
            (sort_horizontal_text_blocks (horizontalOf page) ++
              sort_vertical_text_blocks (verticalOf page)).map stripId))) ∧
      (verticalOf page ≠ [] → horizontalOf page = [] →
        (sort_text_blocks_by_reading_order page).text_blocks.map stripId =
          (sort_vertical_text_blocks (verticalOf page)).map stripId) ∧
      (horizontalOf page ≠ [] → verticalOf page = [] →
        (sort_text_blocks_by_reading_order page).text_blocks.map stripId =
          (sort_horizontal_text_blocks (horizontalOf page)).map stripId)) ∧
    (sort_text_blocks_by_reading_order c4page).text_blocks =
      [{ c4v with block_id := some 1 }, { c4h with block_id := some 2 }] := by
  constructor
  · intro page
    refine ⟨fun hv hh => ⟨fun hvlt => ?_, fun hhlt => ?_⟩, fun hv hh => ?_, fun hh hv => ?_⟩
    · rw [reading_order_v_first page hv hh (le_of_lt hvlt), renumberFrom_map_stripId]
    · rw [reading_order_h_first page hv hh hhlt, renumberFrom_map_stripId]
    · rw [reading_order_v_only page hv hh, renumberFrom_map_stripId]
    · rw [reading_order_h_only page hh hv, renumberFrom_map_stripId]
  · norm_num [sort_text_blocks_by_reading_order, verticalOf, horizontalOf, mergedOf,
      groupTop, merge_overlapping_text_blocks, mergeLoop, clusterOf, calculate_overlap_ratio,
      sort_vertical_text_blocks, sort_horizontal_text_blocks,
      verticalColumns, verticalColumnsSorted, verticalColumnsOrdered,
      horizontalRows, horizontalRowsSorted, horizontalRowsOrdered,
      buildGroups, addToGroups, is_horizontal_overlap, is_vertical_overlap,
      centerXHead, centerYHead, calculate_group_bounding_box, renumberFrom,
      BoundingBox.width, BoundingBox.height, c4page, c4v, c4h, List.enum, List.enumFrom,
      List.insertionSort, List.orderedInsert, List.cons_ne_nil]

/-- C9: when the two direction groups have exactly equal top y coordinates, the
comparison `vertical_top <= horizontal_top` makes the vertical group win the
tie and be emitted first. -/
theorem C9_equal_tops_vertical_first (page : PageOCRResult)
    (hv : verticalOf page ≠ []) (hh : horizontalOf page ≠ [])
    (htie : groupTop (verticalOf page) = groupTop (horizontalOf page)) :
    (sort_text_blocks_by_reading_order page).text_blocks.map stripId =
      (sort_vertical_text_blocks (verticalOf page) ++
        sort_horizontal_text_blocks (horizontalOf page)).map stripId := by
  rw [reading_order_v_first page hv hh (le_of_eq htie), renumberFrom_map_stripId]

set_option maxHeartbeats 1000000 in
/-- Witness for C9 on a concrete page whose two direction groups both start at
top y 5. -/
theorem C9_equal_tops_vertical_first_witness :
    (sort_text_blocks_by_reading_order c9page).text_blocks.map stripId =
      (sort_vertical_text_blocks (verticalOf c9page) ++
        sort_horizontal_text_blocks (horizontalOf c9page)).map stripId :=
  C9_equal_tops_vertical_first c9page
    (by norm_num [verticalOf, mergedOf, merge_overlapping_text_blocks, mergeLoop, clusterOf,
      calculate_overlap_ratio, c9page, c9v, c9h, List.enum, List.enumFrom,
      BoundingBox.width, BoundingBox.height, List.cons_ne_nil,
      (show ("horizontal" : String) ≠ "vertical" by decide),
      (show ("vertical" : String) ≠ "horizontal" by decide)])
    (by norm_num [horizontalOf, mergedOf, merge_overlapping_text_blocks, mergeLoop, clusterOf,
      calculate_overlap_ratio, c9page, c9v, c9h, List.enum, List.enumFrom,
      BoundingBox.width, BoundingBox.height, List.cons_ne_nil,
      (show ("horizontal" : String) ≠ "vertical" by decide),
      (show ("vertical" : String) ≠ "horizontal" by decide)])
    (by norm_num [groupTop, verticalOf, horizontalOf, mergedOf, merge_overlapping_text_blocks,
      mergeLoop, clusterOf, calculate_overlap_ratio, calculate_group_bounding_box,
      c9page, c9v, c9h, List.enum, List.enumFrom, BoundingBox.width, BoundingBox.height,
      List.cons_ne_nil,
      (show ("horizontal" : String) ≠ "vertical" by decide),
      (show ("vertical" : String) ≠ "horizontal" by decide)])

/-- C7: the emitted fragments carry `block_id` values exactly `1..N` in emission
order, with no gaps and no repeats, overwriting provisional ids. -/
theorem C7_sequence_ids_one_to_n (page : PageOCRResult) :
    (sort_text_blocks_by_reading_order page).text_blocks.map (fun b => b.block_id) =
      (List.range (sort_text_blocks_by_reading_order page).text_blocks.length).map
        (fun k : ℕ => some ((k : ℤ) + 1)) := by
  unfold sort_text_blocks_by_reading_order
  by_cases hb : page.text_blocks = []
  · rw [if_pos hb, hb]
    rfl
  · rw [if_neg hb]
    dsimp only
    rw [renumberFrom_map_block_id, renumberFrom_length]
    apply List.map_congr_left
    intro k _
    rw [Int.add_comm]

/-- C8: the orchestrator maps the page sorter over every page independently,
keeps all document metadata, preserves every page frame field, and passes an
empty (for example failed) page through unchanged. -/
theorem C8_document_orchestrator_frame (doc : DocumentOCRResult) :
    ((sort_document_text_blocks doc).pages =
      doc.pages.map sort_text_blocks_by_reading_order) ∧
    (sort_document_text_blocks doc).input_file = doc.input_file ∧
    (sort_document_text_blocks doc).total_processing_time = doc.total_processing_time ∧
    (sort_document_text_blocks doc).device_used = doc.device_used ∧
    (sort_document_text_blocks doc).dpi = doc.dpi ∧
    (sort_document_text_blocks doc).pages.length = doc.pages.length ∧
    (∀ page : PageOCRResult,
      (sort_text_blocks_by_reading_order page).page_number = page.page_number ∧
      (sort_text_blocks_by_reading_order page).page_width = page.page_width ∧
      (sort_text_blocks_by_reading_order page).page_height = page.page_height ∧
      (sort_text_blocks_by_reading_order page).success = page.success ∧
      (sort_text_blocks_by_reading_order page).error = page.error ∧
      (sort_text_blocks_by_reading_order page).processing_time = page.processing_time ∧
      (page.text_blocks = [] → sort_text_blocks_by_reading_order page = page)) := by
  refine ⟨rfl, rfl, rfl, rfl, rfl, ?_, ?_⟩
  · show (doc.pages.map sort_text_blocks_by_reading_order).length = doc.pages.length
    rw [List.length_map]
  · intro page
    unfold sort_text_blocks_by_reading_order
    by_cases hb : page.text_blocks = []
    · rw [if_pos hb]
      exact ⟨rfl, rfl, rfl, rfl, rfl, rfl, fun _ => rfl⟩
    · rw [if_neg hb]
      exact ⟨rfl, rfl, rfl, rfl, rfl, rfl, fun hcon => absurd hcon hb⟩

theorem intersection_none_of_degenerate (a b : BoundingBox)
    (h : a.x1 ≤ a.x0 ∨ a.y1 ≤ a.y0) : a.intersection b = none := by
  unfold BoundingBox.intersection
  rw [if_neg]
  rintro ⟨hx, hy⟩
  rcases h with h | h
  · exact absurd (lt_of_le_of_lt (le_max_left a.x0 b.x0)
      (lt_of_lt_of_le hx (min_le_left a.x1 b.x1))) (not_lt.mpr h)
  · exact absurd (lt_of_le_of_lt (le_max_left a.y0 b.y0)
      (lt_of_lt_of_le hy (min_le_left a.y1 b.y1))) (not_lt.mpr h)

theorem overlap_ratio_zero_of_degenerate (a b : BoundingBox)
    (h : a.x1 ≤ a.x0 ∨ a.y1 ≤ a.y0) : a.overlap_ratio b = 0 := by
  unfold BoundingBox.overlap_ratio
  by_cases ha : a.area = 0
  · rw [if_pos ha]
  · rw [if_neg ha]
    unfold BoundingBox.intersection_area
    rw [intersection_none_of_degenerate a b h]
    exact zero_div _

theorem calculate_overlap_ratio_left_degenerate (a b : BoundingBox)
    (h : a.x1 ≤ a.x0 ∨ a.y1 ≤ a.y0) : calculate_overlap_ratio a b = 0 := by
  unfold calculate_overlap_ratio
  rw [if_pos]
  rcases h with h | h
  · exact Or.inl (le_trans (min_le_left a.x1 b.x1) (le_trans h (le_max_left a.x0 b.x0)))
  · exact Or.inr (le_trans (min_le_left a.y1 b.y1) (le_trans h (le_max_left a.y0 b.y0)))

theorem calculate_overlap_ratio_right_degenerate (a b : BoundingBox)
    (h : b.x1 ≤ b.x0 ∨ b.y1 ≤ b.y0) : calculate_overlap_ratio a b = 0 := by
  unfold calculate_overlap_ratio
  rw [if_pos]
  rcases h with h | h
  · exact Or.inl (le_trans (min_le_right a.x1 b.x1) (le_trans h (le_max_right a.x0 b.x0)))
  · exact Or.inr (le_trans (min_le_right a.y1 b.y1) (le_trans h (le_max_right a.y0 b.y0)))

theorem calculate_overlap_ratio_nonpos_min (b1 b2 : BoundingBox)
    (h : min (b1.width * b1.height) (b2.width * b2.height) ≤ 0) :
    calculate_overlap_ratio b1 b2 = 0 := by
  unfold calculate_overlap_ratio
  by_cases hc : min b1.x1 b2.x1 ≤ max b1.x0 b2.x0 ∨ min b1.y1 b2.y1 ≤ max b1.y0 b2.y0
  · rw [if_pos hc]
  · rw [if_neg hc, if_neg (not_lt.mpr h)]

theorem dedupQualifies_degenerate (t : ℚ) (ht : 0 < t) (a b : TextBlock)
    (h : a.bbox.x1 ≤ a.bbox.x0 ∨ a.bbox.y1 ≤ a.bbox.y0) :
    dedupQualifies t a b = false := by
  unfold dedupQualifies
  rw [overlap_ratio_zero_of_degenerate a.bbox b.bbox h,
    decide_eq_false (not_le.mpr ht), Bool.false_and]

/-- Counterexample to C5 as stated: the degenerate rectangle `(1, 0, 0, 1)`
(its `x1 ≤ x0`) has `area = -1`, not `0` — `width * height` is negative when
exactly one side is reversed. -/
theorem C5_degenerate_area_counterexample :
    ((BoundingBox.mk 1 0 0 1).x1 ≤ (BoundingBox.mk 1 0 0 1).x0 ∨
      (BoundingBox.mk 1 0 0 1).y1 ≤ (BoundingBox.mk 1 0 0 1).y0) ∧
    (BoundingBox.mk 1 0 0 1).area ≠ 0 := by
  constructor
  · left
    norm_num
  · norm_num [BoundingBox.area, BoundingBox.width, BoundingBox.height]

/-- C5 amended: a degenerate rectangle need not have area 0, but its
intersection with any rectangle is empty, so `overlap_ratio` is 0 (it is never
removed by the duplicate filter for a positive threshold), the symmetric
`calculate_overlap_ratio` is 0 in both argument positions (it never joins a
merge cluster and never attracts members), and a non-positive smaller area is
guarded to 0 with no division by zero. -/
theorem C5_degenerate_rectangles_harmless (a : BoundingBox)
    (hdeg : a.x1 ≤ a.x0 ∨ a.y1 ≤ a.y0) :
    (∀ b : BoundingBox, a.intersection b = none) ∧
    (∀ b : BoundingBox, a.overlap_ratio b = 0) ∧
    (∀ b : BoundingBox, calculate_overlap_ratio a b = 0) ∧
    (∀ b : BoundingBox, calculate_overlap_ratio b a = 0) ∧
    (∀ b1 b2 : BoundingBox, min (b1.width * b1.height) (b2.width * b2.height) ≤ 0 →
      calculate_overlap_ratio b1 b2 = 0) ∧
    (∀ (blocks : List TextBlock) (t : ℚ), 0 < t → ∀ i, ∀ hi : i < blocks.length,
      blocks[i].bbox = a → i ∉ blocksToRemove blocks t) ∧
    (∀ (blocks : List TextBlock) (t : ℚ), 0 < t →
      ∀ (used : List ℕ) (i : ℕ) (anchor : TextBlock) (j : ℕ) (b : TextBlock),
        (b.bbox = a ∨ anchor.bbox = a) → (j, b) ∈ clusterOf blocks t used i anchor →
        j = i ∧ b = anchor) := by
  refine ⟨fun b => intersection_none_of_degenerate a b hdeg,
    fun b => overlap_ratio_zero_of_degenerate a b hdeg,
    fun b => calculate_overlap_ratio_left_degenerate a b hdeg,
    fun b => calculate_overlap_ratio_right_degenerate b a hdeg,
    calculate_overlap_ratio_nonpos_min, ?_, ?_⟩
  · intro blocks t ht i hi hbbox
    rw [mem_blocksToRemove_iff blocks t i hi]
    rintro ⟨j, hj, -, -, hq⟩
    rw [dedupQualifies_degenerate t ht _ _ (by rw [hbbox]; exact hdeg)] at hq
    exact Bool.noConfusion hq
  · intro blocks t ht used i anchor j b hba hm
    rcases (mem_clusterOf_iff blocks t used i anchor j b).mp hm with h1 | h2
    · exact h1
    · exfalso
      rcases hba with hba | hba
      · have hz := calculate_overlap_ratio_right_degenerate anchor.bbox b.bbox
          (by rw [hba]; exact hdeg)
        rw [hz] at h2
        exact absurd h2.2.2.2.2 (not_le.mpr ht)
      · have hz := calculate_overlap_ratio_left_degenerate anchor.bbox b.bbox
          (by rw [hba]; exact hdeg)
        rw [hz] at h2
        exact absurd h2.2.2.2.2 (not_le.mpr ht)

/-- Witness for the amended C5 at the concrete degenerate rectangle. -/
theorem C5_degenerate_rectangles_harmless_witness :
    (BoundingBox.mk 1 0 0 1).overlap_ratio (BoundingBox.mk 0 0 5 5) = 0 :=
  (C5_degenerate_rectangles_harmless ⟨1, 0, 0, 1⟩ (Or.inl (by norm_num))).2.1 ⟨0, 0, 5, 5⟩
